import Mathlib

/-!
Verification of the torch-ignite (kindle) detection-head core against its
natural-language specification.

The development shallowly embeds:
* `src/kindle/modules/conv.py` (`Conv`, `Focus`) over real-valued 4-D tensors,
  with eval-mode semantics of the external `nn.Conv2d` / `nn.BatchNorm2d`
  collaborators spelled out explicitly;
* the fusion utility and a source-indexed execution plan, modelled from the
  spec (their code is not part of the source sample);
* the YOLO detection head's shape bookkeeping and bias-initialization
  algorithm, modelled from the spec (the head's code is not part of the
  source sample; its tests are).
-/

namespace Kindle

noncomputable section

/-- A 4-D tensor of shape `(n, c, h, w)` with real entries.  Entries are a
total function of the four indices; only indices below the bounds are
meaningful. -/
@[ext]
structure Tensor4 where
  n : Nat
  c : Nat
  h : Nat
  w : Nat
  data : Nat → Nat → Nat → Nat → ℝ

/-- The all-zero 0-sized tensor, used as the default cache entry. -/
def zeroT : Tensor4 := ⟨0, 0, 0, 0, fun _ _ _ _ => 0⟩

/-- Parameters of the external `nn.Conv2d` collaborator: square kernel,
uniform stride and padding, grouped convolution, optional per-channel bias. -/
structure Conv2d where
  in_channels : Nat
  out_channels : Nat
  kernel_size : Nat
  stride : Nat
  padding : Nat
  groups : Nat
  weight : Nat → Nat → Nat → Nat → ℝ
  bias : Option (Nat → ℝ)

/-- Zero-padded read of a tensor at possibly out-of-range spatial indices. -/
def padRead (t : Tensor4) (n c : Nat) (y x : Int) : ℝ :=
  if 0 ≤ y ∧ y < (t.h : Int) ∧ 0 ≤ x ∧ x < (t.w : Int) then
    t.data n c y.toNat x.toNat
  else 0

/-- Output spatial extent of a convolution: `(d + 2 p - k) / s + 1`. -/
def convOutDim (d k s p : Nat) : Nat := (d + 2 * p - k) / s + 1

/-- The bias contribution of a `Conv2d` at output channel `o`: the bias entry
when a bias is present, `0` when the convolution was built with
`bias=False`. -/
def Conv2d.biasAt (p : Conv2d) (o : Nat) : ℝ :=
  match p.bias with
  | some b => b o
  | none => 0

/-- First input channel fed to output channel `o` under grouped
convolution. -/
def Conv2d.groupBase (p : Conv2d) (o : Nat) : Nat :=
  o / (p.out_channels / p.groups) * (p.in_channels / p.groups)

/-- Eval-mode semantics of `nn.Conv2d`: cross-correlation with zero padding,
bias added per output channel. -/
def Conv2d.apply (p : Conv2d) (t : Tensor4) : Tensor4 where
  n := t.n
  c := p.out_channels
  h := convOutDim t.h p.kernel_size p.stride p.padding
  w := convOutDim t.w p.kernel_size p.stride p.padding
  data := fun n o y x =>
    p.biasAt o +
      ∑ ic ∈ Finset.range (p.in_channels / p.groups),
        ∑ ky ∈ Finset.range p.kernel_size,
          ∑ kx ∈ Finset.range p.kernel_size,
            p.weight o ic ky kx *
              padRead t n (p.groupBase o + ic)
                ((y : Int) * p.stride - p.padding + ky)
                ((x : Int) * p.stride - p.padding + kx)

/-- Parameters of the external `nn.BatchNorm2d` collaborator (eval mode):
per-channel scale `weight` (γ), shift `bias` (β), running statistics and
epsilon. -/
structure BatchNorm2d where
  num_features : Nat
  weight : Nat → ℝ
  bias : Nat → ℝ
  running_mean : Nat → ℝ
  running_var : Nat → ℝ
  eps : ℝ

/-- Eval-mode semantics of `nn.BatchNorm2d`:
`(x - mean) / sqrt (var + eps) * γ + β`, per channel. -/
def BatchNorm2d.apply (bn : BatchNorm2d) (t : Tensor4) : Tensor4 :=
  { t with
    data := fun n c y x =>
      (t.data n c y x - bn.running_mean c) /
          Real.sqrt (bn.running_var c + bn.eps) * bn.weight c + bn.bias c }

/-- Elementwise application of a scalar function (used for the activation). -/
def mapData (f : ℝ → ℝ) (t : Tensor4) : Tensor4 :=
  { t with data := fun n c y x => f (t.data n c y x) }

/-- The `Conv` module of `src/kindle/modules/conv.py`: convolution, batch
normalization and activation.  The activation is the opaque elementwise
function produced by `Activation(activation)()`. -/
structure Conv where
  conv : Conv2d
  batch_norm : BatchNorm2d
  activation : ℝ → ℝ

/-- `autopad` of `kindle.utils.torch_utils`: keep an explicit padding, else
`kernel_size / 2` (the SAME-padding default used by the `Conv`
constructor). -/
def autopad (kernel_size : Nat) (padding : Option Nat) : Nat :=
  padding.getD (kernel_size / 2)

/-- `Conv.__init__`: builds the inner `nn.Conv2d` with `autopad` padding and
`bias=False`, a fresh `nn.BatchNorm2d` over `out_channels` with the default
`eps = 1e-5`, and the activation.  The learned weight and batch-norm
statistics are parameters of the embedding. -/
def Conv.init (in_channels out_channels kernel_size stride : Nat)
    (padding : Option Nat) (groups : Nat)
    (weight : Nat → Nat → Nat → Nat → ℝ)
    (gamma beta mean var : Nat → ℝ) (activation : ℝ → ℝ) : Conv where
  conv :=
    { in_channels := in_channels
      out_channels := out_channels
      kernel_size := kernel_size
      stride := stride
      padding := autopad kernel_size padding
      groups := groups
      weight := weight
      bias := none }
  batch_norm :=
    { num_features := out_channels
      weight := gamma
      bias := beta
      running_mean := mean
      running_var := var
      eps := 1 / 100000 }
  activation := activation

/-- `Conv.forward`: `activation(batch_norm(conv(x)))`. -/
def Conv.forward (m : Conv) (x : Tensor4) : Tensor4 :=
  mapData m.activation (m.batch_norm.apply (m.conv.apply x))

/-- `Conv.fuseforward`: `activation(conv(x))`. -/
def Conv.fuseforward (m : Conv) (x : Tensor4) : Tensor4 :=
  mapData m.activation (m.conv.apply x)

/-- Strided slice `x[..., a::2, b::2]` for `a b ∈ {0, 1}`. -/
def slice2 (t : Tensor4) (a b : Nat) : Tensor4 where
  n := t.n
  c := t.c
  h := (t.h - a + 1) / 2
  w := (t.w - b + 1) / 2
  data := fun n c y x => t.data n c (2 * y + a) (2 * x + b)

/-- `torch.cat([s, t], 1)`: concatenation along the channel dimension. -/
def cat1 (s t : Tensor4) : Tensor4 where
  n := s.n
  c := s.c + t.c
  h := s.h
  w := s.w
  data := fun n c y x =>
    if c < s.c then s.data n c y x else t.data n (c - s.c) y x

/-- `Focus.__reduce_focus`: concatenate the four parity slices of the input
along the channel dimension, halving both spatial dimensions. -/
def reduceFocus (x : Tensor4) : Tensor4 :=
  cat1 (slice2 x 0 0) (cat1 (slice2 x 1 0) (cat1 (slice2 x 0 1) (slice2 x 1 1)))

/-- A `Focus` module is a `Conv` (it subclasses `Conv` adding no state). -/
abbrev Focus := Conv

/-- `Focus.forward`: reduce the image, then run the inherited
`Conv.forward`. -/
def Focus.forward (m : Focus) (x : Tensor4) : Tensor4 :=
  Conv.forward m (reduceFocus x)

/-- `Focus.fuseforward`: reduce the image, then run the inherited
`Conv.fuseforward`. -/
def Focus.fuseforward (m : Focus) (x : Tensor4) : Tensor4 :=
  Conv.fuseforward m (reduceFocus x)

/-- Modelled from the spec: the fusion utility's per-module fold (its code,
`fuse_conv_and_bn`, is not part of the source sample).  The convolution and
its trailing batch normalization are folded into a single convolution with
`fused_weight = conv_weight * (bn_scale / sqrt (bn_running_var + eps))` and
`fused_bias = bn_bias - bn_running_mean * bn_scale / sqrt (bn_running_var +
eps)`. -/
def fuseConvBn (m : Conv) : Conv2d :=
  { m.conv with
    weight := fun o ic ky kx =>
      m.conv.weight o ic ky kx *
        (m.batch_norm.weight o /
          Real.sqrt (m.batch_norm.running_var o + m.batch_norm.eps))
    bias := some fun o =>
      m.batch_norm.bias o -
        m.batch_norm.running_mean o *
          (m.batch_norm.weight o /
            Real.sqrt (m.batch_norm.running_var o + m.batch_norm.eps)) }

/-- A compiled module of the execution plan: either a `Conv` module still
carrying its batch normalization (the pre-fusion pattern), an already fused
convolution (no batch normalization left, run through `fuseforward`
semantics), or some other differentiable transform, which fusion leaves
untouched. -/
inductive Layer where
  | conv (m : Conv)
  | fusedConv (p : Conv2d) (act : ℝ → ℝ)
  | other (f : Tensor4 → Tensor4)

/-- Forward semantics of one layer. -/
def Layer.run : Layer → Tensor4 → Tensor4
  | .conv m, x => m.forward x
  | .fusedConv p act, x => mapData act (p.apply x)
  | .other f, x => f x

/-- Modelled from the spec: one fusion step.  A convolution + batch-norm pair
is folded; layers that no longer match the pattern are left unchanged. -/
def Layer.fuse : Layer → Layer
  | .conv m => .fusedConv (fuseConvBn m) m.activation
  | .fusedConv p act => .fusedConv p act
  | .other f => .other f

/-- Whether a layer still matches the convolution + batch-normalization
pre-fusion pattern. -/
def Layer.isConvBn : Layer → Bool
  | .conv _ => true
  | _ => false

/-- Whether a layer's convolution was built with `bias=False` (always true
for modules built by the `Conv` constructor). -/
def Layer.noBias : Layer → Bool
  | .conv m => m.conv.bias.isNone
  | _ => true

/-- Modelled from the spec: a compiled layer of the execution plan, holding
its resolved source index into the output cache (index 0 is the model
input, index `i + 1` the output of layer `i`). -/
structure CLayer where
  source : Nat
  module : Layer

/-- Modelled from the spec: the execution engine's forward replay.  The
cache starts with the model input and each layer appends its output,
reading its input from the cache at its resolved source index. -/
def runPlanAux : List CLayer → List Tensor4 → List Tensor4
  | [], cache => cache
  | l :: rest, cache =>
      runPlanAux rest (cache ++ [l.module.run (cache.getD l.source zeroT)])

/-- Run a full plan on an input tensor, returning the complete output
cache. -/
def runPlan (plan : List CLayer) (x : Tensor4) : List Tensor4 :=
  runPlanAux plan [x]

/-- Fuse every module of a plan, keeping sources (hence graph topology)
unchanged. -/
def fusePlan (plan : List CLayer) : List CLayer :=
  plan.map fun l => { l with module := l.module.fuse }

/-- Modelled from the spec: an assembled detection model.  The backbone is an
execution plan; the feature maps at the `featIdx` cache indices feed the
detection head, abstracted here as the pair of a flattened-output function
and a per-scale raw-output function (the head holds no fusable
batch normalization, so fusion leaves it unchanged). -/
structure DetectModel where
  plan : List CLayer
  featIdx : List Nat
  headFlat : List Tensor4 → Tensor4
  headRaws : List Tensor4 → List Tensor4

/-- Forward pass of a detection model: run the plan, gather the head's
input feature maps, and return the flattened inference tensor together with
the per-scale raw tensors. -/
def DetectModel.forwardEval (m : DetectModel) (x : Tensor4) :
    Tensor4 × List Tensor4 :=
  let cache := runPlan m.plan x
  let feats := m.featIdx.map fun i => cache.getD i zeroT
  (m.headFlat feats, m.headRaws feats)

/-- Modelled from the spec: the fusion utility traverses the assembled graph
once, folding every convolution + batch-normalization pair in place. -/
def DetectModel.fuse (m : DetectModel) : DetectModel :=
  { m with plan := fusePlan m.plan }

/-- Relative closeness of two scalars: `|a - b| ≤ r * |b|`. -/
def rclose (r a b : ℝ) : Prop := |a - b| ≤ r * |b|

/-- Two tensors agree in shape and are entrywise relatively close. -/
def Tensor4.close (r : ℝ) (s t : Tensor4) : Prop :=
  s.n = t.n ∧ s.c = t.c ∧ s.h = t.h ∧ s.w = t.w ∧
    ∀ n c y x, rclose r (s.data n c y x) (t.data n c y x)

/-! ### Detection-head shape bookkeeping

Modelled from the spec: the YOLO detection head (`yolo_head.py`) is not part
of the source sample; only its tests are.  The spec fixes the per-scale
pipeline: apply the 1×1 projection layer (channels → anchors·(5+classes),
spatial dimensions preserved), reshape to `(batch, anchors, h, w,
channels/anchors)`, and in inference mode flatten each scale to `(batch,
anchors·h·w, 5+classes)` and concatenate all scales along dimension 1. -/

/-- Shape of a 4-D tensor: `(batch, channels, height, width)`. -/
abbrev Shape4 := Nat × Nat × Nat × Nat

/-- Shape of a 5-D tensor:
`(batch, anchors, height, width, outputs-per-anchor)`. -/
abbrev Shape5 := Nat × Nat × Nat × Nat × Nat

/-- Shape of a 3-D tensor: `(batch, predictions, outputs-per-anchor)`. -/
abbrev Shape3 := Nat × Nat × Nat

/-- Modelled from the spec: shape of the per-scale 1×1 projection
convolution, mapping the feature channels to `anchors * (5 + classes)` and
preserving the spatial dimensions. -/
def projShape (na nc : Nat) (s : Shape4) : Shape4 :=
  (s.1, na * (5 + nc), s.2.2.1, s.2.2.2)

/-- Modelled from the spec: the view + permute reshaping the projected map
`(b, ch, h, w)` into `(b, anchors, h, w, ch / anchors)`. -/
def viewScale (na : Nat) (s : Shape4) : Shape5 :=
  (s.1, na, s.2.2.1, s.2.2.2, s.2.1 / na)

/-- One detection scale: projection followed by the reshape. -/
def scaleOut (na nc : Nat) (s : Shape4) : Shape5 :=
  viewScale na (projShape na nc s)

/-- Modelled from the spec: training-mode head forward returns the ordered
per-scale reshaped tensors. -/
def headTrain (na nc : Nat) (fs : List Shape4) : List Shape5 :=
  fs.map (scaleOut na nc)

/-- Flattening one scale's `(b, a, h, w, o)` tensor to `(b, a*h*w, o)`. -/
def flattenScale (s : Shape5) : Shape3 :=
  (s.1, s.2.1 * s.2.2.1 * s.2.2.2.1, s.2.2.2.2)

/-- Concatenation of the per-scale flattened shapes along dimension 1. -/
def catScales (l : List Shape3) : Shape3 :=
  ((l.headD (0, 0, 0)).1, (l.map fun s => s.2.1).sum, (l.headD (0, 0, 0)).2.2)

/-- Modelled from the spec: inference-mode head forward returns the
flattened decoded tensor together with the ordered per-scale raw tensors. -/
def headInfer (na nc : Nat) (fs : List Shape4) : Shape3 × List Shape5 :=
  (catScales ((headTrain na nc fs).map flattenScale), headTrain na nc fs)

/-- Ceiling halving, the spatial effect of one SAME-padded stride-2
convolution. -/
def halfCeil (n : Nat) : Nat := (n + 1) / 2

/-- Iterated ceiling halving: spatial extent after `k` stride-2 stages. -/
def downsample : Nat → Nat → Nat
  | 0, n => n
  | k + 1, n => downsample k (halfCeil n)

/-- Modelled from the spec: the 3-scale sample backbone (config
`yolo_sample.yaml`, not part of the source sample) feeds the head feature
maps at strides 8, 16 and 32, i.e. after 3, 4 and 5 SAME-padded stride-2
stages; the feature channel counts `c1 c2 c3` are irrelevant to the head's
output shapes and left as parameters. -/
def sampleFeatures (inp : Shape4) (c1 c2 c3 : Nat) : List Shape4 :=
  [(inp.1, c1, downsample 3 inp.2.2.1, downsample 3 inp.2.2.2),
   (inp.1, c2, downsample 4 inp.2.2.1, downsample 4 inp.2.2.2),
   (inp.1, c3, downsample 5 inp.2.2.1, downsample 5 inp.2.2.2)]

/-! ### Detection-head bias initialization

Modelled from the spec: `initialize_biases` of the YOLO detection head
(`yolo_head.py` is not part of the source sample; only its tests are). -/

/-- State of the detection head relevant to bias initialization: class and
anchor counts, the calibrated per-scale strides, and the per-scale
projection biases, each viewed as `anchor → slot → value` with slots 0–3
the box components, slot 4 the objectness component and slots `5 + c` the
class components. -/
structure YoloHeadB where
  n_classes : Nat
  n_anchors : Nat
  strides : List ℝ
  biases : List (Nat → Nat → ℝ)

/-- Error taxonomy of the head's stateful operations (spec section 7). -/
inductive StateError where
  | bothClassArgs : StateError

/-- Modelled from the spec: the class-bias value written for class slot `c`.
With `class_probability = p` it is `ln (p / (n_classes - 0.99))`, uniform
over the classes; with `class_frequency = f` it is `ln (f[c] / sum f)`;
with neither the neutral default leaves the existing bias untouched. -/
def classBiasValue (nc : Nat) (cp : Option ℝ) (cf : Option (List ℝ))
    (c : Nat) (old : ℝ) : ℝ :=
  match cp, cf with
  | some p, _ => Real.log (p / ((nc : ℝ) - 0.99))
  | none, some f => Real.log (f.getD c 0 / f.sum)
  | none, none => old

/-- Modelled from the spec: the bias assignment of `init`-time bias setup.
For each scale (stride `st`, existing bias `b`), the objectness slot is set
to `ln (k / (s / st) ^ 2)` for `n_object_per_image = (k, s)`, the class
slots are set by `classBiasValue`, and the box slots keep their existing
values. -/
def applyBiases (H : YoloHeadB) (cp : Option ℝ) (cf : Option (List ℝ))
    (k s : ℝ) : YoloHeadB :=
  { H with
    biases := (H.strides.zip H.biases).map fun p => fun a j =>
      if j = 4 then Real.log (k / (s / p.1) ^ 2)
      else if 5 ≤ j then classBiasValue H.n_classes cp cf (j - 5) (p.2 a j)
      else p.2 a j }

/-- Modelled from the spec: the bias-initialization entry point.  Supplying
both `class_probability` and `class_frequency` is a state error surfaced at
call time (spec section 7); otherwise the biases are written (with neither
argument, the neutral default applies to the class slots). -/
def init_biases (H : YoloHeadB) (cp : Option ℝ) (cf : Option (List ℝ))
    (k s : ℝ) : Except StateError YoloHeadB :=
  if cp.isSome && cf.isSome then .error .bothClassArgs
  else .ok (applyBiases H cp cf k s)

/-- Mean over the anchors of the objectness bias component of scale `i`. -/
def meanObjBias (H : YoloHeadB) (i : Nat) : ℝ :=
  (∑ a ∈ Finset.range H.n_anchors, H.biases.getD i (fun _ _ => 0) a 4) /
    H.n_anchors

/-- Mean over the anchors of the class-`c` bias component of scale `i`. -/
def meanClassBias (H : YoloHeadB) (i c : Nat) : ℝ :=
  (∑ a ∈ Finset.range H.n_anchors, H.biases.getD i (fun _ _ => 0) a (5 + c)) /
    H.n_anchors

/-- The sample head of `yolo_sample.yaml`: 10 classes, 3 anchors per scale,
3 scales with calibrated strides 8, 16, 32; initial projection biases are
parameters. -/
def sampleHead (b1 b2 b3 : Nat → Nat → ℝ) : YoloHeadB :=
  ⟨10, 3, [8, 16, 32], [b1, b2, b3]⟩

/-- The all-zero initial projection bias, used to instantiate
hypothesis-bearing theorems at a concrete head. -/
def zeroBias : Nat → Nat → ℝ := fun _ _ => 0

/-- A concrete bias-free `Conv` module used to instantiate
hypothesis-bearing theorems. -/
def witnessConv : Conv :=
  Conv.init 4 1 1 1 none 1 (fun _ _ _ _ => 1) (fun _ => 1) (fun _ => 0)
    (fun _ => 0) (fun _ => 1) (fun t => t)

/-- A concrete `1 × 1 × 2 × 2` tensor used to instantiate hypothesis-bearing
theorems. -/
def witnessTensor : Tensor4 :=
  ⟨1, 1, 2, 2, fun n c y x => (n : ℝ) + c + 3 * y + 5 * x⟩

/-- A concrete one-layer detection model used to instantiate
hypothesis-bearing theorems. -/
def witnessModel : DetectModel where
  plan := [⟨0, Layer.conv witnessConv⟩]
  featIdx := [1]
  headFlat := fun feats => feats.headD zeroT
  headRaws := fun feats => feats

lemma rclose_refl {r : ℝ} (hr : 0 ≤ r) (a : ℝ) : rclose r a a := by
  simp only [rclose, sub_self, abs_zero]
  positivity

lemma Tensor4.close_refl {r : ℝ} (hr : 0 ≤ r) (t : Tensor4) :
    Tensor4.close r t t :=
  ⟨rfl, rfl, rfl, rfl, fun _ _ _ _ => rclose_refl hr _⟩

lemma fuseConvBn_in_channels (m : Conv) :
    (fuseConvBn m).in_channels = m.conv.in_channels := rfl

lemma fuseConvBn_out_channels (m : Conv) :
    (fuseConvBn m).out_channels = m.conv.out_channels := rfl

lemma fuseConvBn_kernel_size (m : Conv) :
    (fuseConvBn m).kernel_size = m.conv.kernel_size := rfl

lemma fuseConvBn_stride (m : Conv) :
    (fuseConvBn m).stride = m.conv.stride := rfl

lemma fuseConvBn_padding (m : Conv) :
    (fuseConvBn m).padding = m.conv.padding := rfl

lemma fuseConvBn_groups (m : Conv) :
    (fuseConvBn m).groups = m.conv.groups := rfl

lemma fuseConvBn_groupBase (m : Conv) (o : Nat) :
    (fuseConvBn m).groupBase o = m.conv.groupBase o := rfl

lemma fuseConvBn_weight (m : Conv) (o ic ky kx : Nat) :
    (fuseConvBn m).weight o ic ky kx =
      m.conv.weight o ic ky kx *
        (m.batch_norm.weight o /
          Real.sqrt (m.batch_norm.running_var o + m.batch_norm.eps)) := rfl

lemma fuseConvBn_biasAt (m : Conv) (o : Nat) :
    (fuseConvBn m).biasAt o =
      m.batch_norm.bias o -
        m.batch_norm.running_mean o *
          (m.batch_norm.weight o /
            Real.sqrt (m.batch_norm.running_var o + m.batch_norm.eps)) := rfl

/-- Key algebraic identity behind fusion: folding the batch normalization
into the convolution weights and bias reproduces the batch-normalized
convolution exactly, provided the original convolution has no bias. -/
lemma fuseConvBn_apply (m : Conv) (h : m.conv.bias = none) (x : Tensor4) :
    (fuseConvBn m).apply x = m.batch_norm.apply (m.conv.apply x) := by
  have hb : ∀ o, m.conv.biasAt o = 0 := fun o => by simp [Conv2d.biasAt, h]
  ext n o y xx
  · rfl
  · rfl
  · rfl
  · rfl
  · simp only [Conv2d.apply, BatchNorm2d.apply, fuseConvBn_in_channels,
      fuseConvBn_kernel_size, fuseConvBn_stride, fuseConvBn_padding,
      fuseConvBn_groups, fuseConvBn_groupBase, fuseConvBn_weight,
      fuseConvBn_biasAt, hb, zero_add]
    set d := Real.sqrt (m.batch_norm.running_var o + m.batch_norm.eps) with hd
    have hsum :
        (∑ ic ∈ Finset.range (m.conv.in_channels / m.conv.groups),
          ∑ ky ∈ Finset.range m.conv.kernel_size,
            ∑ kx ∈ Finset.range m.conv.kernel_size,
              m.conv.weight o ic ky kx * (m.batch_norm.weight o / d) *
                padRead x n (m.conv.groupBase o + ic)
                  ((y : Int) * m.conv.stride - m.conv.padding + ky)
                  ((xx : Int) * m.conv.stride - m.conv.padding + kx)) =
        (m.batch_norm.weight o / d) *
          ∑ ic ∈ Finset.range (m.conv.in_channels / m.conv.groups),
            ∑ ky ∈ Finset.range m.conv.kernel_size,
              ∑ kx ∈ Finset.range m.conv.kernel_size,
                m.conv.weight o ic ky kx *
                  padRead x n (m.conv.groupBase o + ic)
                    ((y : Int) * m.conv.stride - m.conv.padding + ky)
                    ((xx : Int) * m.conv.stride - m.conv.padding + kx) := by
      rw [Finset.mul_sum]
      refine Finset.sum_congr rfl fun ic _ => ?_
      rw [Finset.mul_sum]
      refine Finset.sum_congr rfl fun ky _ => ?_
      rw [Finset.mul_sum]
      refine Finset.sum_congr rfl fun kx _ => ?_
      ring
    rw [hsum]
    ring

/-- Fusing a single layer preserves its forward semantics when its
convolution carries no bias. -/
lemma Layer.run_fuse (l : Layer) (h : l.noBias = true) (t : Tensor4) :
    l.fuse.run t = l.run t := by
  cases l with
  | conv m =>
      have hb : m.conv.bias = none := by
        simpa [Layer.noBias, Option.isNone_iff_eq_none] using h
      show mapData m.activation ((fuseConvBn m).apply t) = m.forward t
      rw [fuseConvBn_apply m hb t]
      rfl
  | fusedConv p act => rfl
  | other f => rfl

/-- Replaying a fused plan from any cache produces exactly the original
cache trace, when every convolution in the plan is bias-free. -/
lemma runPlanAux_fuse (plan : List CLayer)
    (h : ∀ l ∈ plan, l.module.noBias = true) :
    ∀ cache, runPlanAux (fusePlan plan) cache = runPlanAux plan cache := by
  induction plan with
  | nil => intro cache; rfl
  | cons l rest ih =>
      intro cache
      have hl : l.module.noBias = true := h l (List.mem_cons_self l rest)
      have hrest : ∀ l2 ∈ rest, l2.module.noBias = true := fun l2 hl2 =>
        h l2 (List.mem_cons_of_mem l hl2)
      show runPlanAux (fusePlan rest) _ = runPlanAux rest _
      rw [Layer.run_fuse l.module hl, ih hrest]

/-- Fusing an already fused layer changes nothing. -/
lemma Layer.fuse_fuse (l : Layer) : l.fuse.fuse = l.fuse := by
  cases l <;> rfl

/-! ### The claims -/

/-- C1: For a 3-scale detection configuration with 10 classes and 3 anchors
per scale, a training-mode forward pass on an input tensor of shape
`(1, 3, 480, 380)` returns exactly three tensors, of shapes
`(1, 3, 60, 48, 15)`, `(1, 3, 30, 24, 15)` and `(1, 3, 15, 12, 15)`, in
that order — for any backbone feature channel counts `c1 c2 c3`. -/
theorem yolo_head_train_shapes (c1 c2 c3 : Nat) :
    headTrain 3 10 (sampleFeatures (1, 3, 480, 380) c1 c2 c3) =
      [(1, 3, 60, 48, 15), (1, 3, 30, 24, 15), (1, 3, 15, 12, 15)] := by
  norm_num [headTrain, sampleFeatures, scaleOut, viewScale, projShape,
    downsample, halfCeil]

/-- C2: In inference mode the detection head returns, first, one flattened
tensor of shape `(batch, sum over scales of anchors * h_i * w_i,
5 + classes)` and, second, the ordered per-scale raw tensors of shapes
`(batch, anchors, h_i, w_i, 5 + classes)`; in the 3-scale, 10-class,
3-anchor scenario with input `(1, 3, 480, 380)` the flattened tensor has
shape `(1, 11340, 15)`. -/
theorem yolo_head_infer_shapes :
    (∀ (na nc b : Nat) (fs : List Shape4), 0 < na → fs ≠ [] →
      (∀ s ∈ fs, s.1 = b) →
      (headInfer na nc fs).1 =
        (b, (fs.map fun s => na * s.2.2.1 * s.2.2.2).sum, 5 + nc) ∧
      (headInfer na nc fs).2 =
        fs.map fun s => (s.1, na, s.2.2.1, s.2.2.2, 5 + nc)) ∧
    ∀ c1 c2 c3 : Nat,
      (headInfer 3 10 (sampleFeatures (1, 3, 480, 380) c1 c2 c3)).1 =
          (1, 11340, 15) ∧
        (headInfer 3 10 (sampleFeatures (1, 3, 480, 380) c1 c2 c3)).2 =
          [(1, 3, 60, 48, 15), (1, 3, 30, 24, 15), (1, 3, 15, 12, 15)] := by
  constructor
  · intro na nc b fs hna hne hb
    obtain ⟨s0, rest, rfl⟩ := List.exists_cons_of_ne_nil hne
    have hb0 : s0.1 = b := hb s0 (List.mem_cons_self s0 rest)
    constructor
    · simp only [headInfer, headTrain, catScales, List.map_cons, List.map_map,
        List.headD_cons, Function.comp_def, flattenScale, scaleOut, viewScale,
        projShape, List.sum_cons]
      rw [hb0, Nat.mul_div_cancel_left _ hna]
    · simp only [headInfer, headTrain]
      refine List.map_congr_left fun s hs => ?_
      simp only [scaleOut, viewScale, projShape]
      rw [Nat.mul_div_cancel_left _ hna]
  · intro c1 c2 c3
    constructor
    · norm_num [headInfer, catScales, flattenScale, headTrain, sampleFeatures,
        scaleOut, viewScale, projShape, downsample, halfCeil]
    · norm_num [headInfer, headTrain, sampleFeatures, scaleOut, viewScale,
        projShape, downsample, halfCeil]

/-- Witness for `yolo_head_infer_shapes` at a concrete one-scale feature
list. -/
theorem yolo_head_infer_shapes_witness :
    (0 : Nat) < 3 ∧
      ([((1 : Nat), (2 : Nat), (4 : Nat), (6 : Nat))] : List Shape4) ≠ [] ∧
      (∀ s ∈ ([((1 : Nat), (2 : Nat), (4 : Nat), (6 : Nat))] : List Shape4),
        s.1 = 1) ∧
      (headInfer 3 10 [(1, 2, 4, 6)]).1 = (1, 72, 15) := by
  have h := (yolo_head_infer_shapes.1 3 10 1 [(1, 2, 4, 6)] (by decide)
    (by decide) (by decide)).1
  refine ⟨by decide, by decide, by decide, ?_⟩
  simpa using h

/-- C3: For a fixed input and fixed trained weights, every output of a
forward pass through the fused graph (after applying the fusion utility
once) matches the corresponding output of the pre-fusion graph within 1e-6
relative tolerance — the flattened inference tensor and every per-scale raw
tensor.  In the real-arithmetic model the outputs are in fact exactly
equal. -/
theorem fusion_forward_correct (m : DetectModel) (x : Tensor4)
    (h : ∀ l ∈ m.plan, l.module.noBias = true) :
    m.fuse.forwardEval x = m.forwardEval x ∧
    Tensor4.close (1 / 1000000) (m.fuse.forwardEval x).1
      (m.forwardEval x).1 ∧
    (m.fuse.forwardEval x).2.length = (m.forwardEval x).2.length ∧
    ∀ i, Tensor4.close (1 / 1000000)
      ((m.fuse.forwardEval x).2.getD i zeroT)
      ((m.forwardEval x).2.getD i zeroT) := by
  have key : m.fuse.forwardEval x = m.forwardEval x := by
    simp only [DetectModel.forwardEval, DetectModel.fuse, runPlan]
    rw [runPlanAux_fuse m.plan h]
  exact ⟨key, by rw [key]; exact Tensor4.close_refl (by norm_num) _,
    by rw [key], fun i => by rw [key]; exact Tensor4.close_refl (by norm_num) _⟩

/-- Witness for `fusion_forward_correct` at a concrete one-layer model and
input. -/
theorem fusion_forward_correct_witness :
    (∀ l ∈ witnessModel.plan, l.module.noBias = true) ∧
      Tensor4.close (1 / 1000000)
        (witnessModel.fuse.forwardEval witnessTensor).1
        (witnessModel.forwardEval witnessTensor).1 :=
  ⟨by decide, (fusion_forward_correct witnessModel witnessTensor (by decide)).2.1⟩

/-- C4: The fusion utility is idempotent: applying it twice yields the same
graph as applying it once — so every forward output trivially agrees within
1e-6 relative tolerance — because post-fusion layers no longer match the
convolution + batch-normalization pattern. -/
theorem fusion_idempotent (m : DetectModel) (x : Tensor4) :
    m.fuse.fuse = m.fuse ∧
    (∀ l ∈ m.fuse.plan, l.module.isConvBn = false) ∧
    Tensor4.close (1 / 1000000) (m.fuse.fuse.forwardEval x).1
      (m.fuse.forwardEval x).1 ∧
    (m.fuse.fuse.forwardEval x).2.length =
      (m.fuse.forwardEval x).2.length ∧
    ∀ i, Tensor4.close (1 / 1000000)
      ((m.fuse.fuse.forwardEval x).2.getD i zeroT)
      ((m.fuse.forwardEval x).2.getD i zeroT) := by
  have hplan : fusePlan (fusePlan m.plan) = fusePlan m.plan := by
    simp only [fusePlan, List.map_map]
    refine List.map_congr_left fun l _ => ?_
    simp [Function.comp_def, Layer.fuse_fuse]
  have hidem : m.fuse.fuse = m.fuse := by
    show ({ m with plan := fusePlan (fusePlan m.plan) } : DetectModel) =
      { m with plan := fusePlan m.plan }
    rw [hplan]
  refine ⟨hidem, ?_, ?_, ?_, ?_⟩
  · intro l hl
    simp only [DetectModel.fuse, fusePlan, List.mem_map] at hl
    obtain ⟨l0, _, rfl⟩ := hl
    cases l0.module <;> rfl
  · rw [hidem]; exact Tensor4.close_refl (by norm_num) _
  · rw [hidem]
  · intro i; rw [hidem]; exact Tensor4.close_refl (by norm_num) _

/-- C5: After bias initialization with `n_object_per_image = (k, s)` (and
any valid class-argument combination), for every scale `i` of the sample
head the mean objectness bias component equals
`ln (k / (s / stride[i]) ^ 2)`, hence matches it within 0.1 relative
tolerance. -/
theorem init_biases_objectness (b1 b2 b3 : Nat → Nat → ℝ)
    (cp : Option ℝ) (cf : Option (List ℝ)) (k s : ℝ) (i : Nat)
    (hi : i < 3) (hv : (cp.isSome && cf.isSome) = false) :
    init_biases (sampleHead b1 b2 b3) cp cf k s =
      .ok (applyBiases (sampleHead b1 b2 b3) cp cf k s) ∧
    meanObjBias (applyBiases (sampleHead b1 b2 b3) cp cf k s) i =
      Real.log (k / (s / (sampleHead b1 b2 b3).strides.getD i 0) ^ 2) ∧
    rclose 0.1
      (meanObjBias (applyBiases (sampleHead b1 b2 b3) cp cf k s) i)
      (Real.log (k / (s / (sampleHead b1 b2 b3).strides.getD i 0) ^ 2)) := by
  have hmean : meanObjBias (applyBiases (sampleHead b1 b2 b3) cp cf k s) i =
      Real.log (k / (s / (sampleHead b1 b2 b3).strides.getD i 0) ^ 2) := by
    interval_cases i <;>
      simp [meanObjBias, applyBiases, sampleHead, Finset.sum_range_succ]
  refine ⟨by simp [init_biases, hv], hmean, ?_⟩
  rw [hmean]
  exact rclose_refl (by norm_num) _

/-- Witness for `init_biases_objectness` at the all-zero sample head,
`class_probability` and `class_frequency` both absent, `k = 8`,
`s = 640` and scale 0. -/
theorem init_biases_objectness_witness :
    (0 : Nat) < 3 ∧
      (((none : Option ℝ)).isSome && ((none : Option (List ℝ))).isSome)
        = false ∧
      meanObjBias
        (applyBiases (sampleHead zeroBias zeroBias zeroBias) none none 8 640)
        0 =
      Real.log
        (8 / (640 / (sampleHead zeroBias zeroBias zeroBias).strides.getD 0 0)
          ^ 2) :=
  ⟨by decide, by decide,
    (init_biases_objectness zeroBias zeroBias zeroBias none none 8 640 0
      (by decide) (by decide)).2.1⟩

/-- C6: After bias initialization with `class_probability = p` and no
`class_frequency`, for every scale `i` and every class slot `c` of the
sample head the mean class bias component equals the single uniform value
`ln (p / (n_classes - 0.99))`, hence matches it within 0.1 relative
tolerance. -/
theorem init_biases_class_probability (b1 b2 b3 : Nat → Nat → ℝ)
    (p k s : ℝ) (i c : Nat) (hi : i < 3) (hc : c < 10) :
    init_biases (sampleHead b1 b2 b3) (some p) none k s =
      .ok (applyBiases (sampleHead b1 b2 b3) (some p) none k s) ∧
    meanClassBias (applyBiases (sampleHead b1 b2 b3) (some p) none k s) i c =
      Real.log (p / (((sampleHead b1 b2 b3).n_classes : ℝ) - 0.99)) ∧
    rclose 0.1
      (meanClassBias (applyBiases (sampleHead b1 b2 b3) (some p) none k s) i c)
      (Real.log (p / (((sampleHead b1 b2 b3).n_classes : ℝ) - 0.99))) := by
  have hne : (5 : Nat) + c ≠ 4 := by omega
  have hle : (5 : Nat) ≤ 5 + c := by omega
  have hmean :
      meanClassBias (applyBiases (sampleHead b1 b2 b3) (some p) none k s) i c =
        Real.log (p / (((sampleHead b1 b2 b3).n_classes : ℝ) - 0.99)) := by
    interval_cases i <;>
      simp [meanClassBias, applyBiases, sampleHead, classBiasValue, hne, hle,
        Finset.sum_range_succ]
  refine ⟨rfl, hmean, ?_⟩
  rw [hmean]
  exact rclose_refl (by norm_num) _

/-- Witness for `init_biases_class_probability` at the all-zero sample head,
`p = 1/2`, scale 0 and class 0. -/
theorem init_biases_class_probability_witness :
    (0 : Nat) < 3 ∧ (0 : Nat) < 10 ∧
      meanClassBias
        (applyBiases (sampleHead zeroBias zeroBias zeroBias) (some (1 / 2))
          none 8 640) 0 0 =
      Real.log
        ((1 / 2) /
          (((sampleHead zeroBias zeroBias zeroBias).n_classes : ℝ) - 0.99)) :=
  ⟨by decide, by decide,
    (init_biases_class_probability zeroBias zeroBias zeroBias (1 / 2) 8 640 0 0
      (by decide) (by decide)).2.1⟩

/-- C7: After bias initialization with `class_frequency = f` (a per-class
count sequence of length `n_classes`) and no `class_probability`, for every
scale `i` and class `c` of the sample head the mean class bias component
equals `ln (f[c] / sum f)`, hence matches it within 0.1 relative
tolerance. -/
theorem init_biases_class_frequency (b1 b2 b3 : Nat → Nat → ℝ)
    (f : List ℝ) (k s : ℝ) (i c : Nat) (hi : i < 3) (hc : c < 10)
    (_hlen : f.length = 10) :
    init_biases (sampleHead b1 b2 b3) none (some f) k s =
      .ok (applyBiases (sampleHead b1 b2 b3) none (some f) k s) ∧
    meanClassBias (applyBiases (sampleHead b1 b2 b3) none (some f) k s) i c =
      Real.log (f.getD c 0 / f.sum) ∧
    rclose 0.1
      (meanClassBias (applyBiases (sampleHead b1 b2 b3) none (some f) k s) i c)
      (Real.log (f.getD c 0 / f.sum)) := by
  have hne : (5 : Nat) + c ≠ 4 := by omega
  have hle : (5 : Nat) ≤ 5 + c := by omega
  have hmean :
      meanClassBias (applyBiases (sampleHead b1 b2 b3) none (some f) k s) i c =
        Real.log (f.getD c 0 / f.sum) := by
    interval_cases i <;>
      simp [meanClassBias, applyBiases, sampleHead, classBiasValue, hne, hle,
        Finset.sum_range_succ]
  refine ⟨rfl, hmean, ?_⟩
  rw [hmean]
  exact rclose_refl (by norm_num) _

/-- Witness for `init_biases_class_frequency` at the all-zero sample head,
a concrete length-10 frequency list, scale 0 and class 0. -/
theorem init_biases_class_frequency_witness :
    (0 : Nat) < 3 ∧ (0 : Nat) < 10 ∧
      ([100, 200, 300, 400, 500, 600, 700, 800, 900, 1000] :
        List ℝ).length = 10 ∧
      meanClassBias
        (applyBiases (sampleHead zeroBias zeroBias zeroBias) none
          (some [100, 200, 300, 400, 500, 600, 700, 800, 900, 1000]) 8 640)
        0 0 =
      Real.log
        (([100, 200, 300, 400, 500, 600, 700, 800, 900, 1000] :
            List ℝ).getD 0 0 /
          ([100, 200, 300, 400, 500, 600, 700, 800, 900, 1000] :
            List ℝ).sum) :=
  ⟨by decide, by decide, by decide,
    (init_biases_class_frequency zeroBias zeroBias zeroBias
      [100, 200, 300, 400, 500, 600, 700, 800, 900, 1000] 8 640 0 0
      (by decide) (by decide) (by decide)).2.1⟩

/-- C8 counterexample: calling the bias initialization with neither
`class_probability` nor `class_frequency` does not fail — it succeeds with
the neutral default (exactly what the test `test_yolo_head` exercises) —
refuting the claim that supplying neither fails with a `StateError`. -/
theorem init_biases_neither_succeeds :
    init_biases (sampleHead zeroBias zeroBias zeroBias) none none 8 640 =
      .ok (applyBiases (sampleHead zeroBias zeroBias zeroBias) none none
        8 640) := rfl

/-- C8 (amended): supplying both `class_probability` and `class_frequency`
fails with a `StateError` surfaced at call time; supplying neither succeeds,
applying a neutral default. -/
theorem init_biases_arg_check (b1 b2 b3 : Nat → Nat → ℝ) (p : ℝ)
    (f : List ℝ) (k s : ℝ) :
    init_biases (sampleHead b1 b2 b3) (some p) (some f) k s =
      .error .bothClassArgs ∧
    init_biases (sampleHead b1 b2 b3) none none k s =
      .ok (applyBiases (sampleHead b1 b2 b3) none none k s) :=
  ⟨rfl, rfl⟩

/-- C9: For every input of even height and width, `Focus.forward` equals
`Conv.forward` applied to the channel-dimension concatenation of the four
parity slices (a tensor of shape `(batch, 4 c, h / 2, w / 2)` whose channel
blocks are, in order, `x[..., ::2, ::2]`, `x[..., 1::2, ::2]`,
`x[..., ::2, 1::2]`, `x[..., 1::2, 1::2]`), and `Focus.fuseforward` applies
the same spatial reduction before `Conv.fuseforward`. -/
theorem focus_forward_eq (m : Focus) (x : Tensor4)
    (hh : x.h % 2 = 0) (hw : x.w % 2 = 0) :
    Focus.forward m x = Conv.forward m (reduceFocus x) ∧
    Focus.fuseforward m x = Conv.fuseforward m (reduceFocus x) ∧
    (reduceFocus x).n = x.n ∧ (reduceFocus x).c = 4 * x.c ∧
    (reduceFocus x).h = x.h / 2 ∧ (reduceFocus x).w = x.w / 2 ∧
    ∀ n c y z,
      (c < x.c →
        (reduceFocus x).data n c y z = x.data n c (2 * y) (2 * z)) ∧
      (x.c ≤ c → c < 2 * x.c →
        (reduceFocus x).data n c y z =
          x.data n (c - x.c) (2 * y + 1) (2 * z)) ∧
      (2 * x.c ≤ c → c < 3 * x.c →
        (reduceFocus x).data n c y z =
          x.data n (c - 2 * x.c) (2 * y) (2 * z + 1)) ∧
      (3 * x.c ≤ c → c < 4 * x.c →
        (reduceFocus x).data n c y z =
          x.data n (c - 3 * x.c) (2 * y + 1) (2 * z + 1)) := by
  refine ⟨rfl, rfl, rfl, ?_, ?_, ?_, ?_⟩
  · show x.c + (x.c + (x.c + x.c)) = 4 * x.c
    ring
  · show (x.h - 0 + 1) / 2 = x.h / 2
    omega
  · show (x.w - 0 + 1) / 2 = x.w / 2
    omega
  · intro n c y z
    simp only [reduceFocus, cat1, slice2, Nat.add_zero]
    refine ⟨?_, ?_, ?_, ?_⟩
    · intro h1
      rw [if_pos h1]
    · intro h1 h2
      rw [if_neg (by omega), if_pos (by omega)]
    · intro h1 h2
      rw [if_neg (by omega), if_neg (by omega), if_pos (by omega)]
      have hcc : c - x.c - x.c = c - 2 * x.c := by omega
      rw [hcc]
    · intro h1 h2
      rw [if_neg (by omega), if_neg (by omega), if_neg (by omega)]
      have hcc : c - x.c - x.c - x.c = c - 3 * x.c := by omega
      rw [hcc]

/-- Witness for `focus_forward_eq` at a concrete module and a concrete
`1 × 1 × 2 × 2` tensor. -/
theorem focus_forward_eq_witness :
    witnessTensor.h % 2 = 0 ∧ witnessTensor.w % 2 = 0 ∧
      (reduceFocus witnessTensor).c = 4 * witnessTensor.c ∧
      (reduceFocus witnessTensor).h = witnessTensor.h / 2 ∧
      (reduceFocus witnessTensor).w = witnessTensor.w / 2 := by
  have h := focus_forward_eq witnessConv witnessTensor (by decide) (by decide)
  exact ⟨by decide, by decide, h.2.2.2.1, h.2.2.2.2.1, h.2.2.2.2.2.1⟩

/-- C10: Every `Conv` module built by the constructor has its inner
convolution's bias disabled (`bias=False`); its `forward` is
activation ∘ batch-normalization ∘ convolution, its `fuseforward` is
exactly the same with the batch-normalization step removed, and the
convolution output is the pure weighted sum, with no bias term. -/
theorem conv_forward_structure (ci co ks st : Nat) (pd : Option Nat)
    (g : Nat) (w : Nat → Nat → Nat → Nat → ℝ) (gam bet mu vr : Nat → ℝ)
    (act : ℝ → ℝ) :
    (Conv.init ci co ks st pd g w gam bet mu vr act).conv.bias = none ∧
    (∀ x, (Conv.init ci co ks st pd g w gam bet mu vr act).forward x =
      mapData act
        ((Conv.init ci co ks st pd g w gam bet mu vr act).batch_norm.apply
          ((Conv.init ci co ks st pd g w gam bet mu vr act).conv.apply x))) ∧
    (∀ x, (Conv.init ci co ks st pd g w gam bet mu vr act).fuseforward x =
      mapData act
        ((Conv.init ci co ks st pd g w gam bet mu vr act).conv.apply x)) ∧
    ∀ x n o y z,
      ((Conv.init ci co ks st pd g w gam bet mu vr act).conv.apply x).data
          n o y z =
        ∑ ic ∈ Finset.range (ci / g), ∑ ky ∈ Finset.range ks,
          ∑ kx ∈ Finset.range ks,
            w o ic ky kx *
              padRead x n
                ((Conv.init ci co ks st pd g w gam bet mu vr act).conv.groupBase
                    o + ic)
                ((y : Int) * st - (autopad ks pd : Nat) + ky)
                ((z : Int) * st - (autopad ks pd : Nat) + kx) := by
  refine ⟨rfl, fun x => rfl, fun x => rfl, fun x n o y z => ?_⟩
  show (0 : ℝ) + _ = _
  rw [zero_add]
  rfl

end

end Kindle
